import Mathlib

/-!
Verification development for the native-kernel code-generation pipeline:
the operator-schema parser (`native_parse.py`) and the conditional
source-wrapper generator (`generate-wrapper.py`).  Python string
manipulation is embedded by structurally recursive functions over
`List Char`, mirroring the semantics of the `str` methods the source uses
(`split`, `rsplit(sep, 1)`, `strip`, `rstrip`, `startswith`, `endswith`).
-/

set_option autoImplicit false

deriving instance DecidableEq for Except

namespace NativeParse

/-! ### Python string primitives -/

/-- Whitespace characters recognised by Python's `str.strip`. -/
def isPySpace (c : Char) : Bool :=
  c = ' ' || c = '\t' || c = '\n' || c = '\r'

/-- `str.strip()` on a character list. -/
def trimList (cs : List Char) : List Char :=
  ((cs.dropWhile isPySpace).reverse.dropWhile isPySpace).reverse

/-- `str.strip()`. -/
def pyTrim (s : String) : String :=
  String.mk (trimList s.data)

/-- `str.startswith`. -/
def pyStartsWith (s pre : String) : Bool :=
  pre.data.isPrefixOf s.data

/-- `str.endsWith`. -/
def pyEndsWith (s suf : String) : Bool :=
  suf.data.reverse.isPrefixOf s.data.reverse

/-- `str.split(sep)` for a two-character separator `s1 s2`, with Python's
semantics: leftmost non-overlapping occurrences, empty pieces kept. -/
def splitOn2 (s1 s2 : Char) : List Char → List (List Char)
  | [] => [[]]
  | [c] => [[c]]
  | a :: b :: rest =>
    if a = s1 ∧ b = s2 then [] :: splitOn2 s1 s2 rest
    else
      match splitOn2 s1 s2 (b :: rest) with
      | [] => [[a]]
      | h :: t => (a :: h) :: t

/-- Split at the first occurrence of the two-character separator only
(the behaviour of Python's `split(sep, 1)` when the separator occurs). -/
def splitFirst2 (s1 s2 : Char) : List Char → Option (List Char × List Char)
  | [] => none
  | [_] => none
  | a :: b :: rest =>
    if a = s1 ∧ b = s2 then some ([], rest)
    else (splitFirst2 s1 s2 (b :: rest)).map (fun p => (a :: p.1, p.2))

/-- `str.split(sep)` for a one-character separator. -/
def splitOnChar (sep : Char) : List Char → List (List Char)
  | [] => [[]]
  | a :: rest =>
    if a = sep then [] :: splitOnChar sep rest
    else
      match splitOnChar sep rest with
      | [] => [[a]]
      | h :: t => (a :: h) :: t

/-- `str.split(sep, 1)` for a one-character separator: split at the first
occurrence, `none` when the separator is absent. -/
def splitFirstChar (sep : Char) : List Char → Option (List Char × List Char)
  | [] => none
  | a :: rest =>
    if a = sep then some ([], rest)
    else (splitFirstChar sep rest).map (fun p => (a :: p.1, p.2))

/-- `str.rsplit(sep, 1)` for a one-character separator: split at the last
occurrence, `none` when the separator is absent. -/
def splitLastChar (sep : Char) : List Char → Option (List Char × List Char)
  | [] => none
  | a :: rest =>
    match splitLastChar sep rest with
    | some p => some (a :: p.1, p.2)
    | none => if a = sep then some ([], rest) else none

/-- `arg.rsplit(' ', 1)`: a list of one or two pieces. -/
def rsplitSpace1 (cs : List Char) : List (List Char) :=
  match splitLastChar ' ' cs with
  | none => [cs]
  | some p => [p.1, p.2]

/-- `[a.strip() for a in arg.rsplit(' ', 1)]`. -/
def rsplit1trim (s : String) : List String :=
  (rsplitSpace1 s.data).map (fun l => String.mk (trimList l))

/-- `args.split(', ')` as strings. -/
def pySplitCommaSpace (s : String) : List String :=
  (splitOn2 ',' ' ' s.data).map String.mk

/-- `func.split('->')` as strings. -/
def pySplitArrow (s : String) : List String :=
  (splitOn2 '-' '>' s.data).map String.mk

/-- Split at the first `->` only (what the specification describes). -/
def splitFirstArrow (s : String) : Option (String × String) :=
  (splitFirst2 '-' '>' s.data).map (fun p => (String.mk p.1, String.mk p.2))

/-- `t.rstrip('?')`: drop every trailing question mark. -/
def rstripQ (s : String) : String :=
  String.mk (s.data.reverse.dropWhile (· = '?')).reverse

/-- `'c' in s` for a single character. -/
def pyContainsChar (s : String) (c : Char) : Bool :=
  s.data.contains c

/-- Index, scanning from the right, of the last character satisfying `p`. -/
def lastIdxWhere (p : Char → Bool) : List Char → Option Nat
  | [] => none
  | c :: rest =>
    match lastIdxWhere p rest with
    | some i => some (i + 1)
    | none => if p c then some 0 else none

/-- Decimal digits to a natural number. -/
def digitsToNat (cs : List Char) : Nat :=
  cs.foldl (fun acc c => acc * 10 + (c.toNat - 48)) 0

/-- A non-empty all-digit run, as a number. -/
def digitsVal (cs : List Char) : Option Nat :=
  if cs ≠ [] ∧ cs.all (·.isDigit) then some (digitsToNat cs) else none

/-- Python's `int(s)` restricted to the schema language's integer literals:
optional surrounding whitespace, an optional sign, then decimal digits. -/
def pyIntParse (s : String) : Option Int :=
  match trimList s.data with
  | '-' :: rest => (digitsVal rest).map (fun n => -(n : Int))
  | '+' :: rest => (digitsVal rest).map (fun n => (n : Int))
  | cs => (digitsVal cs).map (fun n => (n : Int))

/-- Exponent part of a Python float literal: `(e|E)(+|-)?digits`. -/
def floatExpPart : List Char → Bool
  | [] => true
  | 'e' :: rest => (digitsVal (match rest with | '+' :: r => r | '-' :: r => r | r => r)).isSome
  | 'E' :: rest => (digitsVal (match rest with | '+' :: r => r | '-' :: r => r | r => r)).isSome
  | _ => false

/-- Mantissa plus optional exponent of a Python float literal. -/
def floatMantissa (cs : List Char) : Bool :=
  let ds := cs.takeWhile (·.isDigit)
  let rest := cs.drop ds.length
  match rest with
  | '.' :: tail =>
    let fs := tail.takeWhile (·.isDigit)
    (ds ≠ [] ∨ fs ≠ []) ∧ floatExpPart (tail.drop fs.length)
  | _ => ds ≠ [] ∧ floatExpPart rest

/-- Python's `float(s)` restricted to ordinary decimal literals: does the
text denote a float? -/
def pyFloatLike (s : String) : Bool :=
  match trimList s.data with
  | '-' :: rest => floatMantissa rest
  | '+' :: rest => floatMantissa rest
  | cs => floatMantissa cs

/-! ### Data model -/

/-- Failure modes of the schema compiler, named after the specification's
error taxonomy where it names the failure site; sites the specification
does not name get their own constructor.  `inPlaceSelfMissing` covers both
assertion sites the specification groups under that name: the in-place
operator having no argument named `self`, and `self` lacking a mutable
annotation.  `unpackMismatch` models Python `ValueError` from unpacking a
`split` result of the wrong length, `indexError` models Python
`IndexError`, and `argTupleType` the `len(typ) == 1` assertion. -/
inductive SchemaErr
  | missingReturnArrow
  | unterminatedArgumentList
  | deprecatedLiteral
  | duplicateKeywordMarker
  | inPlaceSelfMissing
  | inPlaceAnnotationMismatch
  | inPlaceReturnNotMutable
  | outVariantWrongVariant
  | unpackMismatch
  | indexError
  | argTupleType
  deriving Repr, DecidableEq

/-- A decoded default value (`parse_default`'s result): Python booleans,
integers, floats (kept as their literal text) and strings. -/
inductive DefaultVal
  | bool (b : Bool)
  | int (n : Int)
  | floatLit (s : String)
  | str (s : String)
  deriving Repr, DecidableEq

/-- The value of the `variants` metadata field: a YAML string or list. -/
inductive YamlVal
  | str (s : String)
  | list (l : List String)
  deriving Repr, DecidableEq

/-- One argument or return record.  Mirrors the Python dict built by
`parse_arguments` / `parse_return_arguments`; keys absent from a dict are
the defaulted values here.  `anno` models the dict's `annotation` entry. -/
structure Argument where
  type : String
  name : String
  is_nullable : Bool := false
  default : Option DefaultVal := none
  size : Option Nat := none
  output : Bool := false
  kwarg_only : Bool := false
  anno : Option String := none
  field_name : Option String := none
  deriving Repr, DecidableEq

/-- One raw input record: the `func` signature text plus the sibling
metadata fields the claims exercise (`name` override and `variants`). -/
structure RawFunc where
  func : String
  name : Option String := none
  variants : Option YamlVal := none
  deriving Repr, DecidableEq

/-- The compiled declaration record (the fields the schema claims are
about; `ret` models the dict's `return` entry). -/
structure Declaration where
  name : String
  schema_string : String
  inplace : Bool
  arguments : List Argument
  ret : List Argument
  variants : YamlVal
  deriving Repr, DecidableEq

/-! ### `native_parse.py` helpers -/

/-- `temp_type_translations`. -/
def temp_type_translations (typ : String) : String :=
  if typ = "Tensor[]" then "TensorList"
  else if typ = "int[]" then "IntList"
  else if typ = "int" then "int64_t"
  else if typ = "float" then "double"
  else typ

/-- `re.match(r'\[.*\]', s)`: the text starts with `[` and a `]` occurs
somewhere after it. -/
def bracketListMatch (s : String) : Bool :=
  match s.data with
  | '[' :: rest => rest.contains ']'
  | _ => false

/-- `parse_default`. -/
def parse_default (s : String) : Except SchemaErr DefaultVal :=
  if s = "True" then .ok (.bool true)
  else if s = "False" then .ok (.bool false)
  else if s = "true" then .error .deprecatedLiteral
  else if s = "false" then .error .deprecatedLiteral
  else if s = "nullptr" then .ok (.str s)
  else if s = "[]" then .ok (.str "\x7b\x7d")
  else if bracketListMatch s then
    .ok (.str ("\x7b" ++ String.mk (s.data.drop 1).dropLast ++ "\x7d"))
  else if s = "None" then .ok (.str "c10::nullopt")
  else if s = "Mean" then .ok (.str "Reduction::Mean")
  else
    match pyIntParse s with
    | some n => .ok (.int n)
    | none => if pyFloatLike s then .ok (.floatLit s) else .ok (.str s)

/-- `sanitize_type`. -/
def sanitize_type (typ : String) : String :=
  if typ = "Generator*" then "Generator *" else typ

/-- `sanitize_types`: a parenthesized tuple is split on `,` into its
(stripped, sanitized) constituents, anything else is a singleton. -/
def sanitize_types (types : String) : List String :=
  if pyStartsWith types "(" ∧ pyEndsWith types ")" then
    (splitOnChar ',' (types.data.drop 1).dropLast).map
      (fun l => sanitize_type (String.mk (trimList l)))
  else [sanitize_type types]

/-- `get_annotation`: `re.match(r'(Tensor.*)\((.+)\)', t)`.  The match
succeeds when `t` starts with `Tensor` and contains a `(` followed, at
distance at least two, by a `)`.  The greedy groups select the last such
`(` and the last `)` of the string; the text before that `(` becomes the
type and the text between them the tag. -/
def getAnno (t : String) : String × Option String :=
  if pyStartsWith t "Tensor" then
    match lastIdxWhere (· = ')') t.data with
    | none => (t, none)
    | some qmax =>
      match lastIdxWhere (· = '(') (t.data.take (qmax - 1)) with
      | none => (t, none)
      | some p =>
        (String.mk (t.data.take p),
         some (String.mk ((t.data.drop (p + 1)).take (qmax - p - 1))))
  else (t, none)

/-- One alternative of `re.search('(^__i|[^_]_$)', fn_name)`: at a given
anchor position (the head of the reversed text), `[^_]_` matches when the
character there is `_` and the one before it is not `_`. -/
def trailingInplaceMatch : List Char → Bool
  | a :: b :: _ => decide (a = '_') && !decide (b = '_')
  | _ => false

/-- Python's `$` (no MULTILINE): it anchors at the end of the string and
also just before one trailing newline, so `[^_]_$` matches at either
anchor.  The argument is the reversed text. -/
def dollarTrailingMatch (rs : List Char) : Bool :=
  trailingInplaceMatch rs
    || (match rs with
        | c :: rest => decide (c = '\n') && trailingInplaceMatch rest
        | [] => false)

/-- `re.search('(^__i|[^_]_$)', fn_name) is not None`: the name starts
with `__i` (the `^` anchor matches only at the very start), or `[^_]_`
matches at one of the two `$` anchors. -/
def is_inplace_name (s : String) : Bool :=
  pyStartsWith s "__i" || dollarTrailingMatch s.data.reverse

/-- Drop a leading newline of the reversed text (the original text's one
trailing newline). -/
def stripLeadingNL : List Char → List Char
  | c :: rest => if c = '\n' then rest else c :: rest
  | [] => []

/-- The name with one trailing newline stripped (the position before
which Python's `$` may also anchor). -/
def rstrip1NL (s : String) : String :=
  if pyEndsWith s "\n" then String.mk s.data.dropLast else s

/-- The in-place naming convention exactly as the claim words it: leading
`__i`, or a trailing `_` while not ending in `__`. -/
def specInplaceName (s : String) : Bool :=
  pyStartsWith s "__i" || (pyEndsWith s "_" && !pyEndsWith s "__")

/-! ### `parse_arguments` -/

/-- Is the `variants` value one of `[]`, `'function'`, `['function']`
(the values an `_out` function may declare)? -/
def variantsAllowed : YamlVal → Bool
  | .list [] => true
  | .str s => s = "function"
  | .list [v] => v = "function"
  | _ => false

/-- Does the return annotation satisfy
`argument['annotation'] and argument['annotation'].endswith("!")`
(Python truthiness: `None` and the empty string fail)? -/
def annMut : Option String → Bool
  | some a => pyEndsWith a "!"
  | none => false

/-- `re.match(r'int\[(\d+)\]', type)`: rewrite a fixed-length integer
list type to `IntList` plus its size. -/
def intFixedRewrite (s : String) : String × Option Nat :=
  if pyStartsWith s "int[" then
    let rest := s.data.drop 4
    let ds := rest.takeWhile (·.isDigit)
    if ds ≠ [] ∧ (rest.drop ds.length).headD ' ' = ']' then
      ("IntList", some (digitsToNat ds))
    else (s, none)
  else (s, none)

/-- Extract the default value from a `name=value` argument name, with the
two `None` pre-translations (`Tensor? x=None` becomes `x=[]`,
`Generator* x=None` becomes `x=nullptr`). -/
def extractDefault (t : String) (name0 : String) :
    Except SchemaErr (String × Option DefaultVal) :=
  if pyContainsChar name0 '=' then
    match splitFirstChar '=' name0.data with
    | none => .error .unpackMismatch
    | some p =>
      let n := String.mk p.1
      let v0 := String.mk p.2
      let v := if t = "Tensor?" ∧ v0 = "None" then "[]"
               else if t = "Generator*" ∧ v0 = "None" then "nullptr"
               else v0
      match parse_default v with
      | .error e => .error e
      | .ok d => .ok (n, some d)
  else .ok (name0, none)

/-- The body of `parse_arguments`' per-token loop, for a token that is not
the bare `*` marker: build one `Argument`. -/
def mkArgument (tok : String) (kw isOut : Bool) (retLen idx : Nat) :
    Except SchemaErr Argument :=
  match rsplit1trim tok with
  | [t0, name0] =>
    let ta := getAnno t0
    let t := if ta.1 = "Generator?" then "Generator*" else ta.1
    match extractDefault t name0 with
    | .error e => .error e
    | .ok nd =>
      if t = "" then .error .indexError
      else
        match sanitize_types t with
        | [ty0] =>
          let base := rstripQ ty0
          let tsz := intFixedRewrite base
          .ok { type := temp_type_translations tsz.1
                name := nd.1
                is_nullable := pyEndsWith ty0 "?"
                default := nd.2
                size := tsz.2
                output := isOut && decide (idx < retLen)
                kwarg_only := kw
                anno := ta.2 }
        | _ => .error .argTupleType
  | _ => .error .unpackMismatch

/-- Token indices of the non-`*` tokens, numbering every token (the bare
`*` keyword-only marker included) from `i`: position `k` of the result is
the `arg_idx` the loop below gives to the `k`-th built argument. -/
def argTokenIdxFrom : List String → Nat → List Nat
  | [], _ => []
  | tok :: rest, i =>
    if rsplit1trim tok = ["*"] then argTokenIdxFrom rest (i + 1)
    else i :: argTokenIdxFrom rest (i + 1)

/-- Token indices of the non-`*` tokens, numbered from zero. -/
def argTokenIdx (toks : List String) : List Nat :=
  argTokenIdxFrom toks 0

/-- The `for arg_idx, arg in enumerate(args.split(', '))` loop: `idx` is
the running token index (the bare `*` marker counts), `kw` the
keyword-only flag. -/
def parseArgsLoop (isOut : Bool) (retLen : Nat) :
    List String → Nat → Bool → Except SchemaErr (List Argument)
  | [], _, _ => .ok []
  | tok :: rest, idx, kw =>
    if rsplit1trim tok = ["*"] then
      if kw then .error .duplicateKeywordMarker
      else parseArgsLoop isOut retLen rest (idx + 1) true
    else
      match mkArgument tok kw isOut retLen idx with
      | .error e => .error e
      | .ok a =>
        match parseArgsLoop isOut retLen rest (idx + 1) kw with
        | .error e => .error e
        | .ok l => .ok (a :: l)

/-- The per-`self` assertions of the in-place validation: the annotation
must be truthy and end in `!`, and the argument's annotation, name and
type must equal those of the return slot at the argument's own index. -/
def selfCheck (rets : List Argument) (i : Nat) (a : Argument) :
    Except SchemaErr Unit :=
  match a.anno with
  | none => .error .inPlaceSelfMissing
  | some ann =>
    if pyEndsWith ann "!" then
      match rets.get? i with
      | none => .error .indexError
      | some r =>
        if a.anno = r.anno then
          if a.name = r.name then
            if a.type = r.type then .ok () else .error .inPlaceAnnotationMismatch
          else .error .inPlaceAnnotationMismatch
        else .error .inPlaceAnnotationMismatch
    else .error .inPlaceSelfMissing

/-- The `for arg_idx, argument in enumerate(arguments)` in-place
validation loop, with the `found_self` accumulator. -/
def validateLoop (rets : List Argument) :
    List Argument → Nat → Bool → Except SchemaErr Unit
  | [], _, found => if found then .ok () else .error .inPlaceSelfMissing
  | a :: rest, i, found =>
    if a.name = "self" then
      match selfCheck rets i a with
      | .error e => .error e
      | .ok _ => validateLoop rets rest (i + 1) true
    else validateLoop rets rest (i + 1) found

/-- Does the in-place validation run at all
(`inplace and len(func_return) > 0 and func_return[0]['type'] != "void"`)? -/
def needsInplaceCheck (inplace : Bool) (rets : List Argument) : Bool :=
  inplace && (match rets with
    | [] => false
    | r :: _ => r.type ≠ "void")

/-- `parse_arguments(args, func_decl, func_name, func_return, inplace)`;
`variants` is the raw record's `variants` field (`none` when omitted). -/
def parse_arguments (args : String) (variants : Option YamlVal)
    (func_name : String) (func_return : List Argument) (inplace : Bool) :
    Except SchemaErr (List Argument) :=
  let is_out_fn := pyEndsWith func_name "_out"
  if is_out_fn && !variantsAllowed (variants.getD (.list [])) then
    .error .outVariantWrongVariant
  else if pyTrim args = "" then .ok []
  else
    match parseArgsLoop is_out_fn func_return.length (pySplitCommaSpace args) 0 false with
    | .error e => .error e
    | .ok arguments =>
      if needsInplaceCheck inplace func_return then
        match validateLoop func_return arguments 0 false with
        | .error e => .error e
        | .ok _ => .ok arguments
      else .ok arguments

/-! ### `parse_return_arguments` -/

/-- One return slot's record. -/
def mkRetRecord (t name : String) (fieldName ann : Option String) : Argument :=
  { type := temp_type_translations (sanitize_type t)
    name := name
    output := true
    anno := ann
    field_name := fieldName }

/-- One token of the return declaration. -/
def mkReturn (tok : String) (i : Nat) (multiple inplace : Bool) :
    Except SchemaErr Argument :=
  match rsplit1trim tok with
  | [t0] =>
    let ta := getAnno t0
    if ta.1 = "Tensor" && inplace then
      if annMut ta.2 then .ok (mkRetRecord ta.1 "self" none ta.2)
      else .error .inPlaceReturnNotMutable
    else
      .ok (mkRetRecord ta.1 (if multiple then "result" ++ toString i else "result") none ta.2)
  | [t0, name0] =>
    let ta := getAnno t0
    .ok (mkRetRecord ta.1 name0 (some name0) ta.2)
  | _ => .error .unpackMismatch

/-- The `for arg_idx, arg in enumerate(return_decl.split(', '))` loop. -/
def returnLoop (inplace multiple : Bool) :
    List String → Nat → Except SchemaErr (List Argument)
  | [], _ => .ok []
  | tok :: rest, i =>
    match mkReturn tok i multiple inplace with
    | .error e => .error e
    | .ok r =>
      match returnLoop inplace multiple rest (i + 1) with
      | .error e => .error e
      | .ok l => .ok (r :: l)

/-- `parse_return_arguments(return_decl, inplace, func_decl)`.  An empty
declaration raises `IndexError` on `return_decl[0]`. -/
def parse_return_arguments (return_decl : String) (inplace : Bool) :
    Except SchemaErr (List Argument) :=
  if return_decl = "" then .error .indexError
  else
    let rd := if pyStartsWith return_decl "(" ∧ pyEndsWith return_decl ")"
              then String.mk (return_decl.data.drop 1).dropLast
              else return_decl
    let toks := pySplitCommaSpace rd
    returnLoop inplace (decide (1 < toks.length)) toks 0

/-! ### `propagate_field_names` and `run` -/

/-- Copy one field name onto an output argument. -/
def setFieldName (a : Argument) (fn : String) : Argument :=
  { a with field_name := some fn }

/-- The `for i, r in enumerate(return_arguments)` loop of
`propagate_field_names`: `output_arguments[i]` raises `IndexError` when
`i` is out of range. -/
def propagateLoop : List Argument → Nat → List Argument → Except SchemaErr (List Argument)
  | outs, _, [] => .ok outs
  | outs, i, r :: rest =>
    match r.field_name with
    | none => propagateLoop outs (i + 1) rest
    | some fn =>
      if h : i < outs.length then
        propagateLoop (outs.set i (setFieldName (outs.get ⟨i, h⟩) fn)) (i + 1) rest
      else .error .indexError

/-- `propagate_field_names(output_arguments, return_arguments)`. -/
def propagate_field_names (outs rets : List Argument) :
    Except SchemaErr (List Argument) :=
  if outs.isEmpty then .ok outs else propagateLoop outs 0 rets

/-- What field-name propagation does to the output argument at position
`j`, given the return slot (if any) at the same position. -/
def applyFieldName (r : Option Argument) (a : Argument) : Argument :=
  match r with
  | some rr =>
    match rr.field_name with
    | some fn => { a with field_name := some fn }
    | none => a
  | none => a

/-- Step 1 of `run`: `'->' in func` else `Expected return declaration`;
then `func_decl, return_decl = [x.strip() for x in func['func'].split('->')]`
(unpacking fails unless the split has exactly two pieces). -/
def splitSig (s : String) : Except SchemaErr (String × String) :=
  match pySplitArrow s with
  | [_] => .error .missingReturnArrow
  | [a, b] => .ok (pyTrim a, pyTrim b)
  | _ => .error .unpackMismatch

/-- Step 2 of `run`: `fn_name, arguments = func_decl.split('(', 1)`, the
`assert arguments[-1] == ")"`, and the closing-parenthesis strip. -/
def splitFuncDecl (fd : String) : Except SchemaErr (String × String) :=
  match splitFirstChar '(' fd.data with
  | none => .error .unpackMismatch
  | some p =>
    match p.2.reverse with
    | [] => .error .indexError
    | c :: restRev =>
      if c = ')' then .ok (String.mk p.1, String.mk restRev.reverse)
      else .error .unterminatedArgumentList

/-- The per-record body of `run`, after the signature has been split at
`->` into `func_decl` and `return_decl`. -/
def compileFromParts (f : RawFunc) (func_decl return_decl : String) :
    Except SchemaErr Declaration :=
  match splitFuncDecl func_decl with
  | .error e => .error e
  | .ok fp =>
    let fn_name := fp.1
    let name := f.name.getD fn_name
    let inplace := is_inplace_name fn_name
    match parse_return_arguments return_decl inplace with
    | .error e => .error e
    | .ok return_arguments =>
      match parse_arguments fp.2 f.variants name return_arguments inplace with
      | .error e => .error e
      | .ok arguments =>
        let output_arguments := arguments.filter (fun a => a.output)
        match propagate_field_names output_arguments return_arguments with
        | .error e => .error e
        | .ok outs =>
          .ok { name := name
                schema_string := "aten::" ++ f.func
                inplace := inplace
                arguments := arguments
                ret := if output_arguments.isEmpty then return_arguments else outs
                variants := f.variants.getD (.list ["function"]) }

/-- The per-record body of `run`: one declaration per raw record, fatal
error otherwise. -/
def compileRecord (f : RawFunc) : Except SchemaErr Declaration :=
  match splitSig f.func with
  | .error e => .error e
  | .ok p => compileFromParts f p.1 p.2

/-- `run` over a batch of records: fail-fast on the first bad record. -/
def compileAll : List RawFunc → Except SchemaErr (List Declaration)
  | [] => .ok []
  | f :: rest =>
    match compileRecord f with
    | .error e => .error e
    | .ok d =>
      match compileAll rest with
      | .error e => .error e
      | .ok l => .ok (d :: l)

/-- The effective operator name (`func.get('name', fn_name)`) ends in
`_out`, as far as the header parses. -/
def isOutRecord (f : RawFunc) : Bool :=
  match splitSig f.func with
  | .ok p =>
    match splitFuncDecl p.1 with
    | .ok fp => pyEndsWith (f.name.getD fp.1) "_out"
    | .error _ => false
  | .error _ => false

/-- The parsed return slots of a record (the projection of the pipeline
that `run` hands to `parse_arguments` and `propagate_field_names`). -/
def returnArgsOf (f : RawFunc) : Except SchemaErr (List Argument) :=
  match splitSig f.func with
  | .error e => .error e
  | .ok p =>
    match splitFuncDecl p.1 with
    | .error e => .error e
    | .ok fp => parse_return_arguments p.2 (is_inplace_name fp.1)

end NativeParse

namespace WrapperGen

/-! ### `generate-wrapper.py` -/

/-- The generated-file banner. -/
def BANNER : String :=
  "/* Auto-generated by generate-wrappers.py script. Do not modify */"

/-- `os.path.join(root, filename)` for the paths at hand: an absolute
second component replaces the first. -/
def pyPathJoin (root filename : String) : String :=
  if NativeParse.pyStartsWith filename "/" then filename
  else root ++ "/" ++ filename

/-- The lines `print`ed into one wrapper file: the banner, a blank line,
then the unconditional include or the three-line conditional block. -/
def wrapperLines (condition : Option String) (filename : String) : List String :=
  match condition with
  | none => [BANNER, "", "#include <" ++ filename ++ ">"]
  | some c =>
    [BANNER, "",
     "#if " ++ c,
     "#include <" ++ filename ++ ">",
     "#endif /* " ++ c ++ " */"]

/-- The byte content of one wrapper file: each `print` emits its line and
a newline. -/
def wrapperContent (condition : Option String) (filename : String) : String :=
  (wrapperLines condition filename).foldr (fun l acc => l ++ "\n" ++ acc) ""

/-- The lines the specification says a conditional wrapper must contain:
banner, blank line, `#if p`, `#include <f>`, `#endif /* p */` — or, for
the unconditional group, banner, blank line, `#include <f>` only. -/
def specWrapperLines (predicate : Option String) (file : String) : List String :=
  match predicate with
  | none => [BANNER, "", "#include <" ++ file ++ ">"]
  | some p =>
    [BANNER, "",
     "#if " ++ p,
     "#include <" ++ file ++ ">",
     "#endif /* " ++ p ++ " */"]

/-- The file system as a map from path to file content. -/
abbrev FS : Type := String → Option String

/-- Writing (creating or overwriting) one file. -/
def writeFile (fs : FS) (path content : String) : FS :=
  fun q => if q = path then some content else fs q

/-- The wrapper mapping table: predicate (or `none`) to kernel files. -/
abbrev WrapTable : Type := List (Option String × List String)

/-- The inner `for filename in filenames` loop. -/
def generateEntry (fs : FS) (root : String) (condition : Option String)
    (filenames : List String) : FS :=
  filenames.foldl
    (fun g filename => writeFile g (pyPathJoin root filename) (wrapperContent condition filename))
    fs

/-- `generate(table, outputRoot)`: the `for condition, filenames in
table.items()` loop over the file system. -/
def generate (table : WrapTable) (root : String) (fs : FS) : FS :=
  table.foldl (fun g e => generateEntry g root e.1 e.2) fs

/-- The output root hard-coded in `__main__`. -/
def wrappersRoot : String := "wrappers"

/-- The flat write list the nested loops perform, in order. -/
def allWrites (table : WrapTable) (root : String) : List (String × String) :=
  table.flatMap (fun e => e.2.map (fun f => (pyPathJoin root f, wrapperContent e.1 f)))

/-- Replay a write list onto the file system. -/
def applyWrites (ws : List (String × String)) (fs : FS) : FS :=
  ws.foldl (fun g w => writeFile g w.1 w.2) fs

/-- The last content written to `q` by a write list. -/
def lastVal : List (String × String) → String → Option String
  | [], _ => none
  | w :: ws, q =>
    match lastVal ws q with
    | some c => some c
    | none => if q = w.1 then some w.2 else none

/-- All destination paths of a table, in write order. -/
def tablePaths (table : WrapTable) (root : String) : List String :=
  (allWrites table root).map (fun w => w.1)


/-- The `QNNPACK_SOURCES` table, in the source's insertion order. -/
def QNNPACK_SOURCES : WrapTable := [
  (none, [
    "requantization/fp32-psimd.c",
    "requantization/fp32-scalar.c",
    "requantization/gemmlowp-scalar.c",
    "requantization/precise-psimd.c",
    "requantization/precise-scalar.c",
    "requantization/q31-scalar.c",
    "sgemm/6x8-psimd.c",
    "u8lut32norm/scalar.c",
    "x8lut/scalar.c"]),
  (some "defined(__arm__) || defined(__aarch64__)", [
    "q8avgpool/mp8x9p8q-neon.c",
    "q8avgpool/up8x9-neon.c",
    "q8avgpool/up8xm-neon.c",
    "q8conv/4x8-neon.c",
    "q8conv/8x8-neon.c",
    "q8dwconv/mp8x25-neon.c",
    "q8dwconv/mp8x25-neon-per-channel.c",
    "q8dwconv/up8x9-neon.c",
    "q8dwconv/up8x9-neon-per-channel.c",
    "q8gavgpool/mp8x7p7q-neon.c",
    "q8gavgpool/up8x7-neon.c",
    "q8gavgpool/up8xm-neon.c",
    "q8gemm/4x-sumrows-neon.c",
    "q8gemm/4x8-neon.c",
    "q8gemm/4x8-dq-neon.c",
    "q8gemm/4x8c2-xzp-neon.c",
    "q8gemm/6x4-neon.c",
    "q8gemm/8x8-neon.c",
    "q8vadd/neon.c",
    "requantization/fp32-neon.c",
    "requantization/gemmlowp-neon.c",
    "requantization/precise-neon.c",
    "requantization/q31-neon.c",
    "sgemm/5x8-neon.c",
    "sgemm/6x8-neon.c",
    "u8clamp/neon.c",
    "u8maxpool/16x9p8q-neon.c",
    "u8maxpool/sub16-neon.c",
    "u8rmax/neon.c",
    "x8zip/x2-neon.c",
    "x8zip/x3-neon.c",
    "x8zip/x4-neon.c",
    "x8zip/xm-neon.c"]),
  (some "defined(__i386__) || defined(__i686__) || defined(__x86_64__)", [
    "q8avgpool/mp8x9p8q-sse2.c",
    "q8avgpool/up8x9-sse2.c",
    "q8avgpool/up8xm-sse2.c",
    "q8conv/4x4c2-sse2.c",
    "q8dwconv/mp8x25-sse2.c",
    "q8dwconv/mp8x25-sse2-per-channel.c",
    "q8dwconv/up8x9-sse2.c",
    "q8dwconv/up8x9-sse2-per-channel.c",
    "q8gavgpool/mp8x7p7q-sse2.c",
    "q8gavgpool/up8x7-sse2.c",
    "q8gavgpool/up8xm-sse2.c",
    "q8gemm/2x4c8-sse2.c",
    "q8gemm/4x4c2-dq-sse2.c",
    "q8gemm/4x4c2-sse2.c",
    "q8vadd/sse2.c",
    "requantization/fp32-sse2.c",
    "requantization/gemmlowp-sse2.c",
    "requantization/gemmlowp-sse4.c",
    "requantization/gemmlowp-ssse3.c",
    "requantization/precise-sse2.c",
    "requantization/precise-sse4.c",
    "requantization/precise-ssse3.c",
    "requantization/q31-sse2.c",
    "requantization/q31-sse4.c",
    "requantization/q31-ssse3.c",
    "u8clamp/sse2.c",
    "u8maxpool/16x9p8q-sse2.c",
    "u8maxpool/sub16-sse2.c",
    "u8rmax/sse2.c",
    "x8zip/x2-sse2.c",
    "x8zip/x3-sse2.c",
    "x8zip/x4-sse2.c",
    "x8zip/xm-sse2.c"]),
  (some "defined(__arm__)", [
    "hgemm/8x8-aarch32-neonfp16arith.S",
    "q8conv/4x8-aarch32-neon.S",
    "q8dwconv/up8x9-aarch32-neon.S",
    "q8dwconv/up8x9-aarch32-neon-per-channel.S",
    "q8gemm/4x8-aarch32-neon.S",
    "q8gemm/4x8-dq-aarch32-neon.S",
    "q8gemm/4x8c2-xzp-aarch32-neon.S"]),
  (some "defined(__aarch64__)", [
    "q8conv/8x8-aarch64-neon.S",
    "q8gemm/8x8-aarch64-neon.S",
    "q8gemm/8x8-dq-aarch64-neon.S"])]

end WrapperGen

namespace NativeParse

/-! ### Helper lemmas about the Python `split` embeddings -/

theorem splitOn2_ne_nil (s1 s2 : Char) (cs : List Char) : splitOn2 s1 s2 cs ≠ [] := by
  induction cs using splitOn2.induct s1 s2 <;> simp [splitOn2, *]

theorem splitOn2_singleton (s1 s2 : Char) (cs y : List Char)
    (h : splitOn2 s1 s2 cs = [y]) : y = cs := by
  induction cs using splitOn2.induct s1 s2 generalizing y with
  | case1 => simp [splitOn2] at h; simp [h]
  | case2 c => simp [splitOn2] at h; simp [h]
  | case3 a b rest hs ih =>
    rw [splitOn2, if_pos hs] at h
    simp only [List.cons.injEq] at h
    exact absurd h.2 (splitOn2_ne_nil s1 s2 rest)
  | case4 a b rest hs he ih => exact absurd he (splitOn2_ne_nil s1 s2 (b :: rest))
  | case5 a b rest hs hd tl he ih =>
    rw [splitOn2, if_neg hs, he] at h
    simp only [List.cons.injEq] at h
    obtain ⟨h1, h2⟩ := h
    have hh := ih hd (by rw [he, h2])
    rw [← h1, hh]

theorem splitOn2_pair_first (s1 s2 : Char) (cs x y : List Char)
    (h : splitOn2 s1 s2 cs = [x, y]) : splitFirst2 s1 s2 cs = some (x, y) := by
  induction cs using splitOn2.induct s1 s2 generalizing x y with
  | case1 => simp [splitOn2] at h
  | case2 c => simp [splitOn2] at h
  | case3 a b rest hs ih =>
    rw [splitOn2, if_pos hs] at h
    simp only [List.cons.injEq] at h
    obtain ⟨h1, h2⟩ := h
    have hy := splitOn2_singleton s1 s2 rest y h2
    simp only [splitFirst2, if_pos hs]
    rw [← h1, hy]
  | case4 a b rest hs he ih => exact absurd he (splitOn2_ne_nil s1 s2 (b :: rest))
  | case5 a b rest hs hd tl he ih =>
    rw [splitOn2, if_neg hs, he] at h
    simp only [List.cons.injEq] at h
    obtain ⟨h1, h2⟩ := h
    have hh := ih hd y (by rw [he, h2])
    simp only [splitFirst2, if_neg hs, hh]
    rw [← h1]
    rfl

theorem pySplitArrow_pair (s : String) (a b : String)
    (h : pySplitArrow s = [a, b]) : splitFirstArrow s = some (a, b) := by
  unfold pySplitArrow at h
  rcases hl : splitOn2 '-' '>' s.data with _ | ⟨x, _ | ⟨y, t⟩⟩
  · exact absurd hl (splitOn2_ne_nil _ _ _)
  · rw [hl] at h; simp at h
  · rw [hl] at h
    rcases t with _ | ⟨z, t'⟩
    · simp only [List.map_cons, List.map_nil, List.cons.injEq, and_true] at h
      have hx : splitFirstArrow s = some (String.mk x, String.mk y) := by
        unfold splitFirstArrow
        rw [splitOn2_pair_first '-' '>' s.data x y hl]
        rfl
      rw [hx, show String.mk x = a from h.1, show String.mk y = b from h.2]
    · simp at h

/-! ### C2: splitting the signature at the return arrow -/

/-- C2 counterexample: on a signature with two `->` occurrences the claim
describes a split at the first occurrence, which would compile; the code
instead fails the two-way unpacking of `split('->')`. -/
theorem c2_first_arrow_counterexample :
    splitFirstArrow "f() -> Tensor -> Tensor" = some ("f() ", " Tensor -> Tensor")
    ∧ (compileFromParts { func := "f() -> Tensor -> Tensor" } "f()" "Tensor -> Tensor").isOk = true
    ∧ compileRecord { func := "f() -> Tensor -> Tensor" } = .error .unpackMismatch := by
  decide

/-- C2 amended: `compile` requires exactly one `->` in the signature.  With
none it fails with `MissingReturnArrow`; with exactly one it splits there
(which is also the first occurrence) and continues on the trimmed pieces;
with two or more it fails with the unpacking error instead of splitting at
the first occurrence. -/
theorem c2_arrow_split_amended :
    (∀ f : RawFunc, (pySplitArrow f.func).length = 1 →
        compileRecord f = .error .missingReturnArrow)
    ∧ (∀ (f : RawFunc) (a b : String), pySplitArrow f.func = [a, b] →
        splitFirstArrow f.func = some (a, b)
        ∧ compileRecord f = compileFromParts f (pyTrim a) (pyTrim b))
    ∧ (∀ f : RawFunc, 2 < (pySplitArrow f.func).length →
        compileRecord f = .error .unpackMismatch) := by
  refine ⟨?_, ?_, ?_⟩
  · intro f h
    obtain ⟨a, ha⟩ := List.length_eq_one.mp h
    have hs : splitSig f.func = .error .missingReturnArrow := by
      unfold splitSig; rw [ha]
    unfold compileRecord; rw [hs]
  · intro f a b h
    refine ⟨pySplitArrow_pair f.func a b h, ?_⟩
    have hs : splitSig f.func = .ok (pyTrim a, pyTrim b) := by
      unfold splitSig; rw [h]
    unfold compileRecord; rw [hs]
  · intro f h
    rcases hl : pySplitArrow f.func with _ | ⟨a, t1⟩
    · rw [hl] at h; simp at h
    rcases t1 with _ | ⟨b, t2⟩
    · rw [hl] at h; simp at h
    rcases t2 with _ | ⟨c, t3⟩
    · rw [hl] at h; simp at h
    have hs : splitSig f.func = .error .unpackMismatch := by
      unfold splitSig; rw [hl]
    unfold compileRecord; rw [hs]

/-- C2 witness: a well-formed one-arrow signature, fed to the amended
theorem's middle clause. -/
theorem c2_arrow_split_witness :
    splitFirstArrow "g(Tensor x) -> Tensor" = some ("g(Tensor x) ", " Tensor")
    ∧ compileRecord { func := "g(Tensor x) -> Tensor" } =
        compileFromParts { func := "g(Tensor x) -> Tensor" } (pyTrim "g(Tensor x) ") (pyTrim " Tensor") :=
  c2_arrow_split_amended.2.1 { func := "g(Tensor x) -> Tensor" } "g(Tensor x) " " Tensor" (by decide)

/-! ### C4: the in-place naming convention -/

theorem trailing_inplace_charac (rs : List Char) :
    trailingInplaceMatch rs
      = (['_'].isPrefixOf rs && !(['_', '_'].isPrefixOf rs) && decide (2 ≤ rs.length)) := by
  rcases rs with _ | ⟨a, _ | ⟨b, t⟩⟩
  · simp [trailingInplaceMatch, List.isPrefixOf]
  · by_cases ha : a = '_' <;> simp [ha, trailingInplaceMatch, List.isPrefixOf]
  · by_cases ha : a = '_' <;> by_cases hb : b = '_' <;>
      simp [ha, hb, trailingInplaceMatch, List.isPrefixOf, Nat.succ_le_succ, Nat.le_add_left] <;>
      simp [eq_comm, ha, hb]

/-- C4 counterexample: on the one-character name `_` the claim's wording
(`ends with '_' while not ending with '__'`) says in-place, but the
regular expression `[^_]_$` needs a non-underscore character before the
trailing underscore, so the code computes `false`. -/
theorem c4_inplace_name_counterexample :
    is_inplace_name "_" = false ∧ specInplaceName "_" = true := by
  decide

theorem dollarTrailing_strip (rs : List Char) :
    dollarTrailingMatch rs = trailingInplaceMatch (stripLeadingNL rs) := by
  rcases rs with _ | ⟨c, rest⟩
  · rfl
  · by_cases hc : c = '\n'
    · subst hc
      have hfst : trailingInplaceMatch ('\n' :: rest) = false := by
        rcases rest with _ | ⟨b, t⟩ <;> simp [trailingInplaceMatch]
      simp [dollarTrailingMatch, stripLeadingNL, hfst]
    · simp [dollarTrailingMatch, stripLeadingNL, hc]

theorem rstrip1NL_data_reverse (s : String) :
    (rstrip1NL s).data.reverse = stripLeadingNL s.data.reverse := by
  unfold rstrip1NL
  rcases hrs : s.data.reverse with _ | ⟨c, rest⟩
  · have hend : pyEndsWith s "\n" = false := by
      unfold pyEndsWith
      rw [show ("\n" : String).data.reverse = ['\n'] from rfl, hrs]
      rfl
    rw [hend]
    simp [stripLeadingNL, hrs]
  · have hdata : s.data = rest.reverse ++ [c] := by
      have := congrArg List.reverse hrs
      simpa using this
    by_cases hc : c = '\n'
    · subst hc
      have hend : pyEndsWith s "\n" = true := by
        unfold pyEndsWith
        rw [show ("\n" : String).data.reverse = ['\n'] from rfl, hrs]
        simp [List.isPrefixOf]
      rw [hend]
      simp only [if_true]
      rw [show stripLeadingNL ('\n' :: rest) = rest from by simp [stripLeadingNL]]
      rw [hdata, List.dropLast_concat, List.reverse_reverse]
    · have hend : pyEndsWith s "\n" = false := by
        unfold pyEndsWith
        rw [show ("\n" : String).data.reverse = ['\n'] from rfl, hrs]
        simp [List.isPrefixOf, hc, Ne.symm hc]
      rw [hend]
      simp [stripLeadingNL, hrs, hc]

/-- C4 amended: for every name, `is_inplace` is true iff the name starts
with `__i`, or the name — after stripping one trailing newline, before
which Python's `$` may also anchor — has at least two characters, ends
with `_` and does not end with `__`; in particular the single-character
name `_` is not in-place. -/
theorem c4_inplace_name_amended (s : String) :
    is_inplace_name s
      = (pyStartsWith s "__i"
         || (pyEndsWith (rstrip1NL s) "_" && !pyEndsWith (rstrip1NL s) "__"
             && decide (2 ≤ (rstrip1NL s).data.length))) := by
  unfold is_inplace_name
  rw [dollarTrailing_strip, ← rstrip1NL_data_reverse]
  have h1 : ("_" : String).data.reverse = ['_'] := rfl
  have h2 : ("__" : String).data.reverse = ['_', '_'] := rfl
  unfold pyEndsWith
  rw [h1, h2, trailing_inplace_charac, List.length_reverse]

/-- C4 witness: a name with a trailing newline, where the program's
regular expression still reports in-place. -/
theorem c4_inplace_name_witness :
    is_inplace_name "a_\n"
      = (pyStartsWith "a_\n" "__i"
         || (pyEndsWith (rstrip1NL "a_\n") "_" && !pyEndsWith (rstrip1NL "a_\n") "__"
             && decide (2 ≤ (rstrip1NL "a_\n").data.length))) :=
  c4_inplace_name_amended "a_\n"

/-! ### C5: default-value literal decoding -/

/-- C5: `true` is a deprecated literal, `True` decodes to boolean true,
`[]` decodes to the empty-aggregate sentinel, and `None` on a `Tensor?`
argument decodes (via `None` to `[]` to the brace sentinel) to the
empty-aggregate sentinel, which differs from the no-value sentinel
`c10::nullopt`. -/
theorem c5_literal_decoding :
    parse_default "true" = .error .deprecatedLiteral
    ∧ parse_default "True" = .ok (.bool true)
    ∧ parse_default "[]" = .ok (.str "\x7b\x7d")
    ∧ (compileRecord { func := "f(Tensor? x=None) -> Tensor" }).toOption.map
        (fun d => d.arguments.map (fun a => a.default))
        = some [some (.str "\x7b\x7d")]
    ∧ (DefaultVal.str "\x7b\x7d" ≠ DefaultVal.str "c10::nullopt") := by
  decide

/-! ### C6: the `_out` variants restriction -/

/-- C6: an operator whose effective name ends in `_out` compiles only when
its `variants` metadata is the function variant (as a string or singleton
list) or is omitted (the empty default); declaring `variants: method`
fails with `OutVariantWrongVariant`, while `function` or omission
succeeds. -/
theorem c6_out_variant :
    (∀ f : RawFunc, isOutRecord f = true → (compileRecord f).isOk = true →
        variantsAllowed (f.variants.getD (.list [])) = true)
    ∧ compileRecord { func := "foo_out(Tensor self) -> Tensor", variants := some (.str "method") }
        = .error .outVariantWrongVariant
    ∧ (compileRecord { func := "foo_out(Tensor self) -> Tensor", variants := some (.str "function") }).isOk = true
    ∧ (compileRecord { func := "foo_out(Tensor self) -> Tensor" }).isOk = true := by
  refine ⟨?_, by decide, by decide, by decide⟩
  intro f hout hok
  by_contra hv
  rw [Bool.not_eq_true] at hv
  cases hs : splitSig f.func with
  | error e => simp [compileRecord, hs, Except.isOk, Except.toBool] at hok
  | ok p =>
    simp only [compileRecord, hs] at hok
    simp only [isOutRecord, hs] at hout
    cases hf : splitFuncDecl p.1 with
    | error e => simp only [hf] at hout; exact Bool.noConfusion hout
    | ok fp =>
      simp only [hf] at hout
      simp only [compileFromParts, hf] at hok
      cases hr : parse_return_arguments p.2 (is_inplace_name fp.1) with
      | error e => simp [hr, Except.isOk, Except.toBool] at hok
      | ok rets =>
        simp only [hr] at hok
        have hpa : parse_arguments fp.2 f.variants (f.name.getD fp.1) rets (is_inplace_name fp.1)
            = .error .outVariantWrongVariant := by
          simp [parse_arguments, hout, hv]
        simp [hpa, Except.isOk, Except.toBool] at hok

/-- C6 witness. -/
theorem c6_out_variant_witness :
    variantsAllowed (({ func := "h_out(Tensor x) -> Tensor", variants := some (.list ["function"]) } : RawFunc).variants.getD (.list [])) = true :=
  c6_out_variant.1 { func := "h_out(Tensor x) -> Tensor", variants := some (.list ["function"]) } (by decide) (by decide)

/-! ### Lemmas about the argument loop -/

theorem mkArgument_ok_output (tok : String) (kw isOut : Bool) (retLen idx : Nat) (a : Argument)
    (h : mkArgument tok kw isOut retLen idx = .ok a) :
    a.output = (isOut && decide (idx < retLen)) ∧ a.kwarg_only = kw := by
  simp only [mkArgument] at h
  repeat' split at h
  all_goals first
    | (cases h; exact ⟨rfl, rfl⟩)
    | exact absurd h (by simp)

theorem mkArgument_ok_nullable (tok : String) (kw isOut : Bool) (retLen idx : Nat) (a : Argument)
    (h : mkArgument tok kw isOut retLen idx = .ok a) :
    ∃ t0 name0, rsplit1trim tok = [t0, name0]
      ∧ ((getAnno t0).1 ≠ "Generator?" →
          ∃ ty0, sanitize_types (getAnno t0).1 = [ty0]
            ∧ a.is_nullable = pyEndsWith ty0 "?"
            ∧ a.type = temp_type_translations (intFixedRewrite (rstripQ ty0)).1) := by
  simp only [mkArgument] at h
  rcases hr : rsplit1trim tok with _ | ⟨t0, tl0⟩
  · rw [hr] at h; exact absurd h (by simp)
  rcases tl0 with _ | ⟨name0, tl1⟩
  · rw [hr] at h; exact absurd h (by simp)
  rcases tl1 with _ | ⟨x, tl2⟩
  case cons.cons.cons => rw [hr] at h; exact absurd h (by simp)
  rw [hr] at h
  refine ⟨t0, name0, rfl, ?_⟩
  intro hng
  simp only [if_neg hng] at h
  cases hd : extractDefault (getAnno t0).1 name0 with
  | error e => rw [hd] at h; exact absurd h (by simp)
  | ok nd =>
    rw [hd] at h
    dsimp only at h
    by_cases ht : (getAnno t0).1 = ""
    · rw [if_pos ht] at h; exact absurd h (by simp)
    · rw [if_neg ht] at h
      rcases hs : sanitize_types (getAnno t0).1 with _ | ⟨ty0, _ | ⟨y, r⟩⟩
      · rw [hs] at h; exact absurd h (by simp)
      · rw [hs] at h
        cases h
        exact ⟨ty0, rfl, rfl, rfl⟩
      · rw [hs] at h; exact absurd h (by simp)

theorem parseArgsLoop_mem (isOut : Bool) (retLen : Nat) :
    ∀ (toks : List String) (idx : Nat) (kw : Bool) (out : List Argument),
      parseArgsLoop isOut retLen toks idx kw = .ok out →
      ∀ a ∈ out, ∃ (j : Nat) (tok : String) (kw2 : Bool),
        toks.get? j = some tok ∧ mkArgument tok kw2 isOut retLen (idx + j) = .ok a := by
  intro toks
  induction toks with
  | nil =>
    intro idx kw out h a ha
    simp only [parseArgsLoop] at h
    cases h
    exact absurd ha (List.not_mem_nil a)
  | cons tok rest ih =>
    intro idx kw out h a ha
    simp only [parseArgsLoop] at h
    by_cases hstar : rsplit1trim tok = ["*"]
    · rw [if_pos hstar] at h
      by_cases hkw : kw = true
      · rw [if_pos hkw] at h; exact absurd h (by simp)
      · rw [if_neg hkw] at h
        obtain ⟨j, tok2, kw2, hg, hm⟩ := ih (idx + 1) true out h a ha
        refine ⟨j + 1, tok2, kw2, by simpa using hg, ?_⟩
        have harith : idx + (j + 1) = idx + 1 + j := by omega
        rw [harith]; exact hm
    · rw [if_neg hstar] at h
      cases hm : mkArgument tok kw isOut retLen idx with
      | error e => rw [hm] at h; exact absurd h (by simp)
      | ok a1 =>
        rw [hm] at h
        cases hrec : parseArgsLoop isOut retLen rest (idx + 1) kw with
        | error e => rw [hrec] at h; exact absurd h (by simp)
        | ok l =>
          rw [hrec] at h
          cases h
          rcases List.mem_cons.mp ha with ha | ha
          · subst ha
            exact ⟨0, tok, kw, rfl, by rw [Nat.add_zero]; exact hm⟩
          · obtain ⟨j, tok2, kw2, hg, hm2⟩ := ih (idx + 1) kw l hrec a ha
            refine ⟨j + 1, tok2, kw2, by simpa using hg, ?_⟩
            have harith : idx + (j + 1) = idx + 1 + j := by omega
            rw [harith]; exact hm2

theorem parseArgsLoop_noStar (isOut : Bool) (retLen : Nat) :
    ∀ (toks : List String) (idx : Nat) (kw : Bool) (out : List Argument),
      parseArgsLoop isOut retLen toks idx kw = .ok out →
      (∀ tok ∈ toks, rsplit1trim tok ≠ ["*"]) →
      out.length = toks.length
      ∧ ∀ j (hj : j < out.length),
          (out.get ⟨j, hj⟩).output = (isOut && decide (idx + j < retLen)) := by
  intro toks
  induction toks with
  | nil =>
    intro idx kw out h hns
    simp only [parseArgsLoop] at h
    cases h
    exact ⟨rfl, fun j hj => absurd hj (by simp)⟩
  | cons tok rest ih =>
    intro idx kw out h hns
    simp only [parseArgsLoop] at h
    rw [if_neg (hns tok (List.mem_cons_self tok rest))] at h
    cases hm : mkArgument tok kw isOut retLen idx with
    | error e => rw [hm] at h; exact absurd h (by simp)
    | ok a1 =>
      rw [hm] at h
      cases hrec : parseArgsLoop isOut retLen rest (idx + 1) kw with
      | error e => rw [hrec] at h; exact absurd h (by simp)
      | ok l =>
        rw [hrec] at h
        cases h
        obtain ⟨hl, hp⟩ := ih (idx + 1) kw l hrec (fun t ht => hns t (List.mem_cons_of_mem tok ht))
        refine ⟨by simp [hl], ?_⟩
        intro j hj
        cases j with
        | zero =>
          have hout := (mkArgument_ok_output tok kw isOut retLen idx a1 hm).1
          simpa using hout
        | succ j2 =>
          have hj2 : j2 < l.length := by simpa using hj
          have hres := hp j2 hj2
          have harith : idx + (j2 + 1) = idx + 1 + j2 := by omega
          rw [harith]
          exact hres

theorem parse_arguments_ok_cases (args : String) (variants : Option YamlVal)
    (fname : String) (rets : List Argument) (inplace : Bool) (out : List Argument)
    (h : parse_arguments args variants fname rets inplace = .ok out) :
    out = [] ∨
      parseArgsLoop (pyEndsWith fname "_out") rets.length (pySplitCommaSpace args) 0 false
        = .ok out := by
  simp only [parse_arguments] at h
  split at h
  · exact absurd h (by simp)
  · split at h
    · cases h; exact Or.inl rfl
    · cases hloop : parseArgsLoop (pyEndsWith fname "_out") rets.length (pySplitCommaSpace args) 0 false with
      | error e => rw [hloop] at h; exact absurd h (by simp)
      | ok l =>
        rw [hloop] at h
        dsimp only at h
        split at h
        · cases hv : validateLoop rets l 0 false with
          | error e => rw [hv] at h; exact absurd h (by simp)
          | ok u =>
            rw [hv] at h
            dsimp only at h
            cases h
            exact Or.inr rfl
        · cases h
          exact Or.inr rfl

theorem parse_arguments_empty (args : String) (variants : Option YamlVal)
    (fname : String) (rets : List Argument) (inplace : Bool) (out : List Argument)
    (h : parse_arguments args variants fname rets inplace = .ok out)
    (he : pyTrim args = "") : out = [] := by
  simp only [parse_arguments] at h
  by_cases hc1 : (pyEndsWith fname "_out" && !variantsAllowed (variants.getD (.list []))) = true
  · rw [if_pos hc1] at h; exact absurd h (by simp)
  · rw [if_neg hc1, if_pos he] at h
    cases h
    rfl

theorem parse_arguments_ok_loop (args : String) (variants : Option YamlVal)
    (fname : String) (rets : List Argument) (inplace : Bool) (out : List Argument)
    (h : parse_arguments args variants fname rets inplace = .ok out)
    (hne : pyTrim args ≠ "") :
    parseArgsLoop (pyEndsWith fname "_out") rets.length (pySplitCommaSpace args) 0 false
      = .ok out := by
  simp only [parse_arguments] at h
  by_cases hc1 : (pyEndsWith fname "_out" && !variantsAllowed (variants.getD (.list []))) = true
  · rw [if_pos hc1] at h; exact absurd h (by simp)
  · rw [if_neg hc1, if_neg hne] at h
    cases hloop : parseArgsLoop (pyEndsWith fname "_out") rets.length (pySplitCommaSpace args) 0 false with
    | error e => rw [hloop] at h; exact absurd h (by simp)
    | ok l =>
      rw [hloop] at h
      dsimp only at h
      by_cases hni : needsInplaceCheck inplace rets = true
      · rw [if_pos hni] at h
        cases hv : validateLoop rets l 0 false with
        | error e => rw [hv] at h; exact absurd h (by simp)
        | ok u =>
          cases u
          rw [hv] at h
          dsimp only at h
          cases h
          rfl
      · rw [if_neg hni] at h
        cases h
        rfl

theorem parseArgsLoop_tokenIdx (isOut : Bool) (retLen : Nat) :
    ∀ (toks : List String) (i0 : Nat) (kw : Bool) (out : List Argument),
      parseArgsLoop isOut retLen toks i0 kw = .ok out →
      out.length = (argTokenIdxFrom toks i0).length
      ∧ ∀ (k : Nat) (hk : k < out.length) (hk2 : k < (argTokenIdxFrom toks i0).length),
          (out.get ⟨k, hk⟩).output
            = (isOut && decide ((argTokenIdxFrom toks i0).get ⟨k, hk2⟩ < retLen)) := by
  intro toks
  induction toks with
  | nil =>
    intro i0 kw out h
    simp only [parseArgsLoop] at h
    cases h
    exact ⟨rfl, fun k hk _ => absurd hk (by simp)⟩
  | cons tok rest ih =>
    intro i0 kw out h
    simp only [parseArgsLoop] at h
    by_cases hstar : rsplit1trim tok = ["*"]
    · rw [if_pos hstar] at h
      by_cases hkw : kw = true
      · rw [if_pos hkw] at h; exact absurd h (by simp)
      · rw [if_neg hkw] at h
        obtain ⟨hl, hp⟩ := ih (i0 + 1) true out h
        rw [show argTokenIdxFrom (tok :: rest) i0 = argTokenIdxFrom rest (i0 + 1) from by
          rw [argTokenIdxFrom, if_pos hstar]]
        exact ⟨hl, hp⟩
    · rw [if_neg hstar] at h
      cases hm : mkArgument tok kw isOut retLen i0 with
      | error e => rw [hm] at h; exact absurd h (by simp)
      | ok a1 =>
        rw [hm] at h
        cases hrec : parseArgsLoop isOut retLen rest (i0 + 1) kw with
        | error e => rw [hrec] at h; exact absurd h (by simp)
        | ok l =>
          rw [hrec] at h
          cases h
          obtain ⟨hl, hp⟩ := ih (i0 + 1) kw l hrec
          rw [show argTokenIdxFrom (tok :: rest) i0 = i0 :: argTokenIdxFrom rest (i0 + 1) from by
            rw [argTokenIdxFrom, if_neg hstar]]
          refine ⟨by simp [hl], ?_⟩
          intro k hk hk2
          cases k with
          | zero =>
            have hout := (mkArgument_ok_output tok kw isOut retLen i0 a1 hm).1
            simpa using hout
          | succ k2 =>
            have hk' : k2 < l.length := by simpa using hk
            have hk2' : k2 < (argTokenIdxFrom rest (i0 + 1)).length := by simpa using hk2
            have hres := hp k2 hk' hk2'
            simpa using hres

/-! ### C3: nullability of argument types -/

/-- C3 counterexample: the surface type `Generator?` carries the `?`
nullability suffix, yet the compiled argument is stored with
`is_nullable = false` and type `Generator *`, because the code rewrites
`Generator?` to `Generator*` before the nullability test. -/
theorem c3_nullable_counterexample :
    pyEndsWith "Generator?" "?" = true
    ∧ (compileRecord { func := "f(Generator? x) -> Tensor" }).toOption.map
        (fun d => d.arguments.map (fun a => (a.type, a.is_nullable)))
        = some [("Generator *", false)] := by
  decide

/-- C3 amended: every argument of a successfully parsed argument list
comes from a comma-separated token whose type part (after annotation
extraction), unless it is the pre-translated `Generator?`, determines the
stored record: `is_nullable` is true iff the (sanitized) type token ends
in `?`, and the stored type is that token with all trailing `?` stripped,
fixed-size-integer-list rewritten, then alias-translated. -/
theorem c3_nullability_amended
    (args : String) (variants : Option YamlVal) (fname : String)
    (rets : List Argument) (inplace : Bool) (out : List Argument)
    (h : parse_arguments args variants fname rets inplace = .ok out) :
    ∀ a ∈ out, ∃ tok ∈ pySplitCommaSpace args, ∃ t0 name0,
      rsplit1trim tok = [t0, name0]
      ∧ ((getAnno t0).1 ≠ "Generator?" →
          ∃ ty0, sanitize_types (getAnno t0).1 = [ty0]
            ∧ a.is_nullable = pyEndsWith ty0 "?"
            ∧ a.type = temp_type_translations (intFixedRewrite (rstripQ ty0)).1) := by
  intro a ha
  rcases parse_arguments_ok_cases args variants fname rets inplace out h with hout | hloop
  · subst hout; exact absurd ha (List.not_mem_nil a)
  · obtain ⟨j, tok, kw2, hg, hm⟩ :=
      parseArgsLoop_mem (pyEndsWith fname "_out") rets.length
        (pySplitCommaSpace args) 0 false out hloop a ha
    obtain ⟨t0, name0, hr, hprop⟩ :=
      mkArgument_ok_nullable tok kw2 (pyEndsWith fname "_out") rets.length (0 + j) a hm
    exact ⟨tok, List.get?_mem hg, t0, name0, hr, hprop⟩

/-- C3 witness: the nullable `Tensor?` argument of a compiled signature. -/
theorem c3_nullability_witness :
    ∃ tok ∈ pySplitCommaSpace "Tensor? x", ∃ t0 name0,
      rsplit1trim tok = [t0, name0]
      ∧ ((getAnno t0).1 ≠ "Generator?" →
          ∃ ty0, sanitize_types (getAnno t0).1 = [ty0]
            ∧ ({ type := "Tensor", name := "x", is_nullable := true } : Argument).is_nullable
                = pyEndsWith ty0 "?"
            ∧ ({ type := "Tensor", name := "x", is_nullable := true } : Argument).type
                = temp_type_translations (intFixedRewrite (rstripQ ty0)).1) :=
  c3_nullability_amended "Tensor? x" none "f"
    [{ type := "Tensor", name := "result", output := true }] false
    [{ type := "Tensor", name := "x", is_nullable := true }] (by decide)
    { type := "Tensor", name := "x", is_nullable := true } (by decide)

/-! ### C7: output marking of `_out` arguments -/

/-- C7 counterexample: with a leading keyword-only `*` marker the token
index, not the argument position, is compared against the return count:
`foo_out(*, Tensor a, Tensor b) -> (Tensor, Tensor)` compiles with two
return slots and two arguments, but only the first argument is marked as
output, although the claim marks both leading arguments. -/
theorem c7_output_counterexample :
    (returnArgsOf { func := "foo_out(*, Tensor a, Tensor b) -> (Tensor, Tensor)" }).toOption.map
        List.length = some 2
    ∧ (compileRecord { func := "foo_out(*, Tensor a, Tensor b) -> (Tensor, Tensor)" }).toOption.map
        (fun d => d.arguments.map (fun a => a.output)) = some [true, false] := by
  decide

/-- C7 amended: an argument is marked `is_output` iff the operator name
ends in `_out` and the argument's token index in the comma-split argument
text (counting a bare `*` marker as a token, `argTokenIdx` in the model)
is below the number of parsed return slots; this is the general rule,
star tokens included.  Consequently for non-`_out` operators no argument
is output-marked, and for argument lists without a `*` marker exactly the
leading `min(#returns, #arguments)` arguments are marked. -/
theorem c7_output_marking_amended
    (args : String) (variants : Option YamlVal) (fname : String)
    (rets : List Argument) (inplace : Bool) (out : List Argument)
    (h : parse_arguments args variants fname rets inplace = .ok out) :
    (pyTrim args = "" → out = [])
    ∧ (out.length = (argTokenIdx (pySplitCommaSpace args)).length ∨ pyTrim args = "")
    ∧ (∀ (k : Nat) (hk : k < out.length)
          (hk2 : k < (argTokenIdx (pySplitCommaSpace args)).length),
        (out.get ⟨k, hk⟩).output
          = (pyEndsWith fname "_out"
             && decide ((argTokenIdx (pySplitCommaSpace args)).get ⟨k, hk2⟩ < rets.length)))
    ∧ (pyEndsWith fname "_out" = false → ∀ a ∈ out, a.output = false)
    ∧ ((∀ tok ∈ pySplitCommaSpace args, rsplit1trim tok ≠ ["*"]) →
        ∀ (j : Nat) (hj : j < out.length),
          (out.get ⟨j, hj⟩).output
            = (pyEndsWith fname "_out" && decide (j < rets.length))) := by
  refine ⟨?_, ?_, ?_, ?_, ?_⟩
  · intro he
    exact parse_arguments_empty args variants fname rets inplace out h he
  · by_cases he : pyTrim args = ""
    · exact Or.inr he
    · refine Or.inl ?_
      have hloop := parse_arguments_ok_loop args variants fname rets inplace out h he
      exact (parseArgsLoop_tokenIdx (pyEndsWith fname "_out") rets.length
        (pySplitCommaSpace args) 0 false out hloop).1
  · intro k hk hk2
    by_cases he : pyTrim args = ""
    · have hout := parse_arguments_empty args variants fname rets inplace out h he
      rw [hout] at hk
      exact absurd hk (by simp)
    · have hloop := parse_arguments_ok_loop args variants fname rets inplace out h he
      exact (parseArgsLoop_tokenIdx (pyEndsWith fname "_out") rets.length
        (pySplitCommaSpace args) 0 false out hloop).2 k hk hk2
  · intro hnout a ha
    rcases parse_arguments_ok_cases args variants fname rets inplace out h with hout | hloop
    · subst hout; exact absurd ha (List.not_mem_nil a)
    · obtain ⟨j, tok, kw2, hg, hm⟩ :=
        parseArgsLoop_mem (pyEndsWith fname "_out") rets.length
          (pySplitCommaSpace args) 0 false out hloop a ha
      have hov := (mkArgument_ok_output tok kw2 (pyEndsWith fname "_out") rets.length (0 + j) a hm).1
      rw [hnout] at hov
      simpa using hov
  · intro hns j hj
    rcases parse_arguments_ok_cases args variants fname rets inplace out h with hout | hloop
    · subst hout; exact absurd hj (by simp)
    · obtain ⟨hl, hp⟩ :=
        parseArgsLoop_noStar (pyEndsWith fname "_out") rets.length
          (pySplitCommaSpace args) 0 false out hloop hns
      simpa using hp j hj

/-- C7 witness: the star-shifted instance of the general token-index
rule — with a leading `*` marker the second argument's token index is 2,
not below the return count 2, so it is not output-marked. -/
theorem c7_output_marking_witness :
    (([{ type := "Tensor", name := "a", output := true, kwarg_only := true },
        { type := "Tensor", name := "b", kwarg_only := true }] : List Argument).get ⟨1, by decide⟩).output
      = (pyEndsWith "foo_out" "_out"
         && decide ((argTokenIdx (pySplitCommaSpace "*, Tensor a, Tensor b")).get ⟨1, by decide⟩
              < ([{ type := "Tensor", name := "result0", output := true },
                  { type := "Tensor", name := "result1", output := true }] : List Argument).length)) :=
  (c7_output_marking_amended "*, Tensor a, Tensor b" none "foo_out"
      [{ type := "Tensor", name := "result0", output := true },
       { type := "Tensor", name := "result1", output := true }] false
      [{ type := "Tensor", name := "a", output := true, kwarg_only := true },
       { type := "Tensor", name := "b", kwarg_only := true }]
      (by decide)).2.2.1 1 (by decide) (by decide)

/-! ### Lemmas about the in-place validation loop -/

theorem selfCheck_ok (rets : List Argument) (i : Nat) (a : Argument)
    (h : selfCheck rets i a = .ok ()) :
    annMut a.anno = true
    ∧ ∃ r, rets.get? i = some r ∧ a.anno = r.anno ∧ a.name = r.name ∧ a.type = r.type := by
  unfold selfCheck at h
  cases ha : a.anno with
  | none => rw [ha] at h; exact absurd h (by simp)
  | some ann =>
    rw [ha] at h
    dsimp only at h
    by_cases hb : pyEndsWith ann "!" = true
    · rw [if_pos hb] at h
      cases hr : rets.get? i with
      | none => rw [hr] at h; exact absurd h (by simp)
      | some r =>
        rw [hr] at h
        dsimp only at h
        split at h
        · split at h
          · split at h
            · rename_i h1 h2 h3
              exact ⟨by simp [annMut, ha, hb], r, rfl, h1, h2, h3⟩
            · exact absurd h (by simp)
          · exact absurd h (by simp)
        · exact absurd h (by simp)
    · rw [if_neg hb] at h
      exact absurd h (by simp)

theorem validateLoop_ok_exists (rets : List Argument) :
    ∀ (l : List Argument) (i : Nat) (found : Bool),
      validateLoop rets l i found = .ok () →
      found = true ∨ ∃ (j : Nat) (hj : j < l.length), (l.get ⟨j, hj⟩).name = "self"
        ∧ selfCheck rets (i + j) (l.get ⟨j, hj⟩) = .ok () := by
  intro l
  induction l with
  | nil =>
    intro i found h
    unfold validateLoop at h
    by_cases hf : found = true
    · exact Or.inl hf
    · rw [if_neg hf] at h; exact absurd h (by simp)
  | cons a rest ih =>
    intro i found h
    unfold validateLoop at h
    by_cases hn : a.name = "self"
    · rw [if_pos hn] at h
      cases hc : selfCheck rets i a with
      | error e => rw [hc] at h; exact absurd h (by simp)
      | ok u =>
        cases u
        exact Or.inr ⟨0, by simp, hn, by rw [Nat.add_zero]; exact hc⟩
    · rw [if_neg hn] at h
      rcases ih (i + 1) found h with hf | ⟨j, hj, h1, h2⟩
      · exact Or.inl hf
      · refine Or.inr ⟨j + 1, by simpa using hj, h1, ?_⟩
        have harith : i + (j + 1) = i + 1 + j := by omega
        rw [harith]; exact h2

theorem validateLoop_no_self (rets : List Argument) :
    ∀ (l : List Argument), (∀ a ∈ l, a.name ≠ "self") →
      ∀ i, validateLoop rets l i false = .error .inPlaceSelfMissing := by
  intro l
  induction l with
  | nil => intro hno i; rfl
  | cons a rest ih =>
    intro hno i
    unfold validateLoop
    rw [if_neg (hno a (List.mem_cons_self a rest))]
    exact ih (fun x hx => hno x (List.mem_cons_of_mem a hx)) (i + 1)

/-! ### C1: the in-place `self` invariant -/

/-- C1 counterexample: `f_() -> Tensor(a!)` is in-place with a non-void
first return slot, has no argument at all (in particular none named
`self`), and still compiles, because the empty argument list returns from
`parse_arguments` before the in-place validation runs. -/
theorem c1_inplace_self_counterexample :
    (compileRecord { func := "f_() -> Tensor(a!)" }).toOption.map
        (fun d => (d.inplace, d.arguments, d.ret.map (fun r => r.type)))
      = some (true, [], ["Tensor"]) := by
  decide

/-- C1 amended: for an in-place operator with a non-void first return slot
and a non-empty argument list, compile succeeds only if some argument
named `self` carries a mutable (`!`-suffixed) annotation and its
annotation, name and type equal those of the return slot at the same
positional index as the argument (the first slot when `self` is the first
argument); if the non-empty argument list has no argument named `self`
(or `self` lacks a mutable annotation) the record fails with
`InPlaceSelfMissing`, as the `add_` examples show.  An empty argument
list bypasses the validation entirely. -/
theorem c1_inplace_self_amended :
    (∀ (args : String) (variants : Option YamlVal) (fname : String)
        (rets : List Argument) (out : List Argument),
        needsInplaceCheck true rets = true →
        parse_arguments args variants fname rets true = .ok out →
        pyTrim args ≠ "" →
        ∃ (j : Nat) (hj : j < out.length), (out.get ⟨j, hj⟩).name = "self"
          ∧ annMut (out.get ⟨j, hj⟩).anno = true
          ∧ ∃ r, rets.get? j = some r
              ∧ (out.get ⟨j, hj⟩).anno = r.anno
              ∧ (out.get ⟨j, hj⟩).name = r.name
              ∧ (out.get ⟨j, hj⟩).type = r.type)
    ∧ (∀ (args : String) (variants : Option YamlVal) (fname : String)
        (rets : List Argument) (l : List Argument),
        needsInplaceCheck true rets = true →
        (pyEndsWith fname "_out" = true → variantsAllowed (variants.getD (.list [])) = true) →
        pyTrim args ≠ "" →
        parseArgsLoop (pyEndsWith fname "_out") rets.length (pySplitCommaSpace args) 0 false
          = .ok l →
        (∀ a ∈ l, a.name ≠ "self") →
        parse_arguments args variants fname rets true = .error .inPlaceSelfMissing)
    ∧ (compileRecord { func := "add_(Tensor(a!) self, Tensor other) -> Tensor(a!)" }).isOk = true
    ∧ compileRecord { func := "add_(Tensor self, Tensor other) -> Tensor(a!)" }
        = .error .inPlaceSelfMissing := by
  refine ⟨?_, ?_, by decide, by decide⟩
  · intro args variants fname rets out hni h hne
    simp only [parse_arguments] at h
    by_cases hc1 : (pyEndsWith fname "_out" && !variantsAllowed (variants.getD (.list []))) = true
    · rw [if_pos hc1] at h; exact absurd h (by simp)
    · rw [if_neg hc1, if_neg hne] at h
      cases hloop : parseArgsLoop (pyEndsWith fname "_out") rets.length (pySplitCommaSpace args) 0 false with
      | error e => rw [hloop] at h; exact absurd h (by simp)
      | ok l =>
        rw [hloop] at h
        dsimp only at h
        rw [if_pos hni] at h
        cases hv : validateLoop rets l 0 false with
        | error e => rw [hv] at h; exact absurd h (by simp)
        | ok u =>
          cases u
          rw [hv] at h
          dsimp only at h
          cases h
          rcases (validateLoop_ok_exists rets out 0 false hv) with hf | ⟨j, hj, h1, h2⟩
          · exact absurd hf (by simp)
          · obtain ⟨hmut, r, hr, he1, he2, he3⟩ := selfCheck_ok rets (0 + j) _ h2
            exact ⟨j, hj, h1, hmut, r, by simpa using hr, he1, he2, he3⟩
  · intro args variants fname rets l hni hvar hne hloop hno
    have hv0 := validateLoop_no_self rets l hno 0
    have hcond : (pyEndsWith fname "_out" && !variantsAllowed (variants.getD (.list []))) = false := by
      cases ho : pyEndsWith fname "_out"
      · rfl
      · simp [hvar ho]
    simp [parse_arguments, hcond, hne, hloop, hni, hv0]

/-- C1 witness: the canonical in-place signature, fed to the amended
theorem's success clause. -/
theorem c1_inplace_self_witness :
    ∃ (j : Nat) (hj : j < ([{ type := "Tensor", name := "self", anno := some "a!" },
          { type := "Tensor", name := "other" }] : List Argument).length),
      (([{ type := "Tensor", name := "self", anno := some "a!" },
          { type := "Tensor", name := "other" }] : List Argument).get ⟨j, hj⟩).name = "self"
      ∧ annMut (([{ type := "Tensor", name := "self", anno := some "a!" },
          { type := "Tensor", name := "other" }] : List Argument).get ⟨j, hj⟩).anno = true
      ∧ ∃ r, ([{ type := "Tensor", name := "self", output := true, anno := some "a!" }] : List Argument).get? j = some r
          ∧ (([{ type := "Tensor", name := "self", anno := some "a!" },
              { type := "Tensor", name := "other" }] : List Argument).get ⟨j, hj⟩).anno = r.anno
          ∧ (([{ type := "Tensor", name := "self", anno := some "a!" },
              { type := "Tensor", name := "other" }] : List Argument).get ⟨j, hj⟩).name = r.name
          ∧ (([{ type := "Tensor", name := "self", anno := some "a!" },
              { type := "Tensor", name := "other" }] : List Argument).get ⟨j, hj⟩).type = r.type :=
  c1_inplace_self_amended.1 "Tensor(a!) self, Tensor other" none "add_"
    [{ type := "Tensor", name := "self", output := true, anno := some "a!" }]
    [{ type := "Tensor", name := "self", anno := some "a!" },
     { type := "Tensor", name := "other" }]
    (by decide) (by decide) (by decide)

/-! ### Lemmas about field-name propagation -/

theorem propagateLoop_charac :
    ∀ (rets outs res : List Argument) (i : Nat),
      propagateLoop outs i rets = .ok res →
      res.length = outs.length
      ∧ ∀ j : Nat,
          res.get? j = if i ≤ j then (outs.get? j).map (applyFieldName (rets.get? (j - i)))
                       else outs.get? j := by
  intro rets
  induction rets with
  | nil =>
    intro outs res i h
    simp only [propagateLoop] at h
    cases h
    refine ⟨rfl, ?_⟩
    intro j
    by_cases hij : i ≤ j
    · rw [if_pos hij]
      cases houts : outs.get? j <;> simp [applyFieldName]
    · rw [if_neg hij]
  | cons r rest ih =>
    intro outs res i h
    simp only [propagateLoop] at h
    cases hf : r.field_name with
    | none =>
      rw [hf] at h
      dsimp only at h
      obtain ⟨hl, hp⟩ := ih outs res (i + 1) h
      refine ⟨hl, ?_⟩
      intro j
      rw [hp j]
      by_cases hij2 : i + 1 ≤ j
      · rw [if_pos hij2, if_pos (by omega : i ≤ j)]
        have harith : j - i = (j - (i + 1)) + 1 := by omega
        rw [harith]
        rfl
      · by_cases hij : i ≤ j
        · have hji : j = i := by omega
          subst hji
          rw [if_neg hij2, if_pos (le_refl j), Nat.sub_self]
          cases houts : outs.get? j <;> simp [applyFieldName, hf]
        · rw [if_neg hij2, if_neg hij]
    | some fn =>
      rw [hf] at h
      dsimp only at h
      split at h
      · rename_i hlt
        obtain ⟨hl, hp⟩ := ih _ res (i + 1) h
        have hlen : res.length = outs.length := by
          rw [hl, List.length_set]
        refine ⟨hlen, ?_⟩
        intro j
        rw [hp j]
        by_cases hij2 : i + 1 ≤ j
        · rw [if_pos hij2, if_pos (by omega : i ≤ j)]
          rw [List.get?_set_ne _ _ (by omega : i ≠ j)]
          have harith : j - i = (j - (i + 1)) + 1 := by omega
          rw [harith]
          rfl
        · by_cases hij : i ≤ j
          · have hji : j = i := by omega
            subst hji
            rw [if_neg hij2, if_pos (le_refl j), Nat.sub_self]
            rw [List.get?_set_eq_of_lt _ hlt, List.get?_eq_get hlt]
            simp [applyFieldName, hf, setFieldName]
          · rw [if_neg hij2, if_neg hij]
            rw [List.get?_set_ne _ _ (by omega : i ≠ j)]
      · exact absurd h (by simp)

/-! ### C10: the declaration's returns come from the output arguments -/

/-- C10: when a compiled record has output-marked arguments, the
declaration's `return` sequence is exactly the output-marked arguments in
argument order, with each parsed return slot's explicit field name
propagated onto the argument at the same position; the parsed return
records themselves are the `return` sequence only when no argument is
output-marked. -/
theorem c10_returns_selection (f : RawFunc) (d : Declaration) (rets : List Argument)
    (h : compileRecord f = .ok d) (hr : returnArgsOf f = .ok rets) :
    ((d.arguments.filter (fun a => a.output)).isEmpty = true → d.ret = rets)
    ∧ ((d.arguments.filter (fun a => a.output)).isEmpty = false →
        propagate_field_names (d.arguments.filter (fun a => a.output)) rets = .ok d.ret
        ∧ d.ret.length = (d.arguments.filter (fun a => a.output)).length
        ∧ ∀ j : Nat, d.ret.get? j
            = ((d.arguments.filter (fun a => a.output)).get? j).map
                (applyFieldName (rets.get? j))) := by
  unfold compileRecord at h
  unfold returnArgsOf at hr
  cases hs : splitSig f.func with
  | error e => rw [hs] at h; exact absurd h (by simp)
  | ok p =>
    rw [hs] at h hr
    dsimp only at h hr
    unfold compileFromParts at h
    cases hfd : splitFuncDecl p.1 with
    | error e => rw [hfd] at h; exact absurd h (by simp)
    | ok fp =>
      rw [hfd] at h hr
      dsimp only at h hr
      cases hra : parse_return_arguments p.2 (is_inplace_name fp.1) with
      | error e => rw [hra] at h; exact absurd h (by simp)
      | ok rets0 =>
        rw [hra] at h hr
        dsimp only at h hr
        cases hr
        cases hpa : parse_arguments fp.2 f.variants (f.name.getD fp.1) rets (is_inplace_name fp.1) with
        | error e => rw [hpa] at h; exact absurd h (by simp)
        | ok arguments =>
          rw [hpa] at h
          dsimp only at h
          cases hpf : propagate_field_names (arguments.filter (fun a => a.output)) rets with
          | error e => rw [hpf] at h; exact absurd h (by simp)
          | ok outs =>
            rw [hpf] at h
            dsimp only at h
            cases h
            constructor
            · intro hemp
              simp only [] at hemp ⊢
              simp [hemp]
            · intro hnemp
              simp only [] at hnemp ⊢
              have hret : (if (arguments.filter (fun a => a.output)).isEmpty = true
                  then rets else outs) = outs := by
                simp [hnemp]
              simp only [hret] at hnemp ⊢
              have hpl : propagateLoop (arguments.filter (fun a => a.output)) 0 rets = .ok outs := by
                have hx := hpf
                unfold propagate_field_names at hx
                rw [if_neg (by simp [hnemp])] at hx
                exact hx
              obtain ⟨hlen, hget⟩ := propagateLoop_charac rets (arguments.filter (fun a => a.output)) outs 0 hpl
              refine ⟨by simpa using hpf, hlen, ?_⟩
              intro j
              have hgj := hget j
              simpa using hgj

/-- C10 witness: a two-output `_out` declaration whose returns are the two
output-marked arguments. -/
theorem c10_returns_selection_witness :
    ({ name := "topk_out", schema_string := "aten::topk_out(Tensor v, Tensor i, Tensor self) -> (Tensor values, Tensor indices)", inplace := false, arguments := [{ type := "Tensor", name := "v", output := true }, { type := "Tensor", name := "i", output := true }, { type := "Tensor", name := "self" }], ret := [{ type := "Tensor", name := "v", output := true, field_name := some "values" }, { type := "Tensor", name := "i", output := true, field_name := some "indices" }], variants := .list ["function"] } : Declaration).ret.length
      = (({ name := "topk_out", schema_string := "aten::topk_out(Tensor v, Tensor i, Tensor self) -> (Tensor values, Tensor indices)", inplace := false, arguments := [{ type := "Tensor", name := "v", output := true }, { type := "Tensor", name := "i", output := true }, { type := "Tensor", name := "self" }], ret := [{ type := "Tensor", name := "v", output := true, field_name := some "values" }, { type := "Tensor", name := "i", output := true, field_name := some "indices" }], variants := .list ["function"] } : Declaration).arguments.filter (fun a => a.output)).length :=
  ((c10_returns_selection { func := "topk_out(Tensor v, Tensor i, Tensor self) -> (Tensor values, Tensor indices)" } { name := "topk_out", schema_string := "aten::topk_out(Tensor v, Tensor i, Tensor self) -> (Tensor values, Tensor indices)", inplace := false, arguments := [{ type := "Tensor", name := "v", output := true }, { type := "Tensor", name := "i", output := true }, { type := "Tensor", name := "self" }], ret := [{ type := "Tensor", name := "v", output := true, field_name := some "values" }, { type := "Tensor", name := "i", output := true, field_name := some "indices" }], variants := .list ["function"] } [{ type := "Tensor", name := "values", output := true, field_name := some "values" }, { type := "Tensor", name := "indices", output := true, field_name := some "indices" }] (by decide) (by decide)).2 (by decide)).2.1

/-! ### Lemmas about single-character splitting (for wrapper lines) -/

theorem splitOnChar_no_sep (c : Char) :
    ∀ (xs : List Char), (∀ x ∈ xs, x ≠ c) → splitOnChar c xs = [xs] := by
  intro xs
  induction xs with
  | nil => intro h; rfl
  | cons a rest ih =>
    intro h
    unfold splitOnChar
    rw [if_neg (h a (List.mem_cons_self a rest))]
    rw [ih (fun x hx => h x (List.mem_cons_of_mem a hx))]

theorem splitOnChar_append_sep (c : Char) :
    ∀ (xs rest : List Char), (∀ x ∈ xs, x ≠ c) →
      splitOnChar c (xs ++ c :: rest) = xs :: splitOnChar c rest := by
  intro xs
  induction xs with
  | nil =>
    intro rest h
    simp only [List.nil_append]
    rw [splitOnChar]
    rw [if_pos rfl]
  | cons a xs2 ih =>
    intro rest h
    show splitOnChar c (a :: (xs2 ++ c :: rest)) = _
    rw [splitOnChar]
    rw [if_neg (h a (List.mem_cons_self a xs2))]
    rw [ih rest (fun x hx => h x (List.mem_cons_of_mem a hx))]

end NativeParse

namespace WrapperGen

/-! ### Lemmas about the wrapper generator's file writes -/

theorem applyWrites_lookup :
    ∀ (ws : List (String × String)) (fs : FS) (q : String),
      applyWrites ws fs q = match lastVal ws q with
        | some c => some c
        | none => fs q := by
  intro ws
  induction ws with
  | nil => intro fs q; rfl
  | cons w rest ih =>
    intro fs q
    show applyWrites rest (writeFile fs w.1 w.2) q = _
    rw [ih (writeFile fs w.1 w.2) q]
    cases hl : lastVal rest q with
    | some c => simp [lastVal, hl]
    | none =>
      by_cases hq : q = w.1
      · subst hq
        simp [lastVal, hl, writeFile]
      · simp [lastVal, hl, writeFile, hq]

theorem applyWrites_append (xs ys : List (String × String)) (fs : FS) :
    applyWrites (xs ++ ys) fs = applyWrites ys (applyWrites xs fs) := by
  unfold applyWrites
  rw [List.foldl_append]

theorem generateEntry_eq (root : String) (c : Option String) (files : List String) (fs : FS) :
    generateEntry fs root c files
      = applyWrites (files.map (fun f => (pyPathJoin root f, wrapperContent c f))) fs := by
  unfold generateEntry applyWrites
  rw [List.foldl_map]

theorem generate_eq_applyWrites (table : WrapTable) (root : String) :
    ∀ fs, generate table root fs = applyWrites (allWrites table root) fs := by
  induction table with
  | nil => intro fs; rfl
  | cons e rest ih =>
    intro fs
    show generate rest root (generateEntry fs root e.1 e.2) = _
    rw [ih, generateEntry_eq]
    rw [show allWrites (e :: rest) root
        = e.2.map (fun f => (pyPathJoin root f, wrapperContent e.1 f)) ++ allWrites rest root
      from rfl]
    rw [applyWrites_append]

theorem lastVal_not_mem :
    ∀ (ws : List (String × String)) (q : String),
      (∀ w ∈ ws, w.1 ≠ q) → lastVal ws q = none := by
  intro ws
  induction ws with
  | nil => intro q h; rfl
  | cons w rest ih =>
    intro q h
    unfold lastVal
    rw [ih q (fun x hx => h x (List.mem_cons_of_mem w hx))]
    rw [if_neg (Ne.symm (h w (List.mem_cons_self w rest)))]

theorem lastVal_mem_nodup :
    ∀ (ws : List (String × String)) (p c : String),
      (p, c) ∈ ws → (ws.map (fun w => w.1)).Nodup → lastVal ws p = some c := by
  intro ws
  induction ws with
  | nil => intro p c h _; cases h
  | cons w rest ih =>
    intro p c hmem hnd
    simp only [List.map_cons, List.nodup_cons] at hnd
    rcases List.mem_cons.mp hmem with he | hm
    · have hp1 : w.1 = p := by rw [← he]
      have hnotin : ∀ x ∈ rest, x.1 ≠ p := by
        intro x hx heq
        exact hnd.1 (by rw [hp1]; exact List.mem_map.mpr ⟨x, hx, heq⟩)
      unfold lastVal
      rw [lastVal_not_mem rest p hnotin]
      rw [if_pos hp1.symm]
      rw [show w.2 = c from by rw [← he]]
    · have hrec := ih p c hm hnd.2
      unfold lastVal
      rw [hrec]

/-! ### Newline structure of a wrapper file -/

theorem splitOnChar_joinLines :
    ∀ (ls : List String), (∀ l ∈ ls, ∀ x ∈ l.data, x ≠ '\n') →
      NativeParse.splitOnChar '\n' ((ls.foldr (fun l acc => l ++ "\n" ++ acc) "").data)
        = ls.map String.data ++ [[]] := by
  intro ls
  induction ls with
  | nil => intro h; rfl
  | cons l rest ih =>
    intro h
    have hdata : ((l ++ "\n" ++ rest.foldr (fun l acc => l ++ "\n" ++ acc) "").data)
        = l.data ++ '\n' :: (rest.foldr (fun l acc => l ++ "\n" ++ acc) "").data := by
      rw [show (l ++ "\n" ++ rest.foldr (fun l acc => l ++ "\n" ++ acc) "").data
          = (l.data ++ ['\n']) ++ (rest.foldr (fun l acc => l ++ "\n" ++ acc) "").data from rfl]
      rw [List.append_assoc]
      rfl
    show NativeParse.splitOnChar '\n' ((l ++ "\n" ++ rest.foldr (fun l acc => l ++ "\n" ++ acc) "").data) = _
    rw [hdata]
    rw [NativeParse.splitOnChar_append_sep '\n' l.data _
        (h l (List.mem_cons_self l rest))]
    rw [ih (fun x hx => h x (List.mem_cons_of_mem l hx))]
    rfl

/-! ### C8: the wrapper file contents -/

/-- C8: for every `(predicate, file)` entry of a wrapper table with
pairwise-distinct destination paths, `generate` leaves at `root/file` a
file whose content splits on newlines into exactly the lines the
specification prescribes — the banner, a blank line, and then the single
unconditional `#include`, or the `#if p` / `#include` / `#endif` block
with the predicate copied verbatim — plus the terminal empty piece of the
trailing newline. -/
theorem c8_wrapper_files (table : WrapTable) (root : String) (fs : FS)
    (cond : Option String) (files : List String) (file : String)
    (hmem : (cond, files) ∈ table) (hf : file ∈ files)
    (hdist : (tablePaths table root).Nodup)
    (hnl : ∀ l ∈ wrapperLines cond file, ∀ x ∈ l.data, x ≠ '\n') :
    generate table root fs (pyPathJoin root file) = some (wrapperContent cond file)
    ∧ NativeParse.splitOnChar '\n' (wrapperContent cond file).data
        = (specWrapperLines cond file).map String.data ++ [[]] := by
  constructor
  · rw [generate_eq_applyWrites, applyWrites_lookup]
    have hw : (pyPathJoin root file, wrapperContent cond file) ∈ allWrites table root := by
      unfold allWrites
      exact List.mem_flatMap.mpr ⟨(cond, files), hmem, List.mem_map_of_mem _ hf⟩
    rw [lastVal_mem_nodup (allWrites table root) _ _ hw hdist]
  · have hjl := splitOnChar_joinLines (wrapperLines cond file) hnl
    exact hjl

/-- C8 witness: the specification's own example, instantiated on the real
`QNNPACK_SOURCES` table. -/
theorem c8_wrapper_files_witness :
    generate QNNPACK_SOURCES wrappersRoot (fun _ => none)
        (pyPathJoin wrappersRoot "q8conv/4x8-aarch32-neon.S")
      = some (wrapperContent (some "defined(__arm__)") "q8conv/4x8-aarch32-neon.S")
    ∧ NativeParse.splitOnChar '\n'
        (wrapperContent (some "defined(__arm__)") "q8conv/4x8-aarch32-neon.S").data
      = (specWrapperLines (some "defined(__arm__)") "q8conv/4x8-aarch32-neon.S").map String.data ++ [[]] :=
  c8_wrapper_files QNNPACK_SOURCES wrappersRoot (fun _ => none) (some "defined(__arm__)")
    ["hgemm/8x8-aarch32-neonfp16arith.S",
     "q8conv/4x8-aarch32-neon.S",
     "q8dwconv/up8x9-aarch32-neon.S",
     "q8dwconv/up8x9-aarch32-neon-per-channel.S",
     "q8gemm/4x8-aarch32-neon.S",
     "q8gemm/4x8-dq-aarch32-neon.S",
     "q8gemm/4x8c2-xzp-aarch32-neon.S"]
    "q8conv/4x8-aarch32-neon.S"
    (by decide) (by decide) (by decide) (by decide)

/-! ### C9: idempotence of the wrapper generator -/

/-- C9: for a wrapper table whose destination paths are pairwise
distinct, running `generate` twice with the same table and output root
leaves exactly the same file system — the same files with byte-identical
contents — as running it once. -/
theorem c9_generate_idempotent (table : WrapTable) (root : String) (fs : FS)
    (hdist : (tablePaths table root).Nodup) :
    generate table root (generate table root fs) = generate table root fs := by
  funext q
  rw [generate_eq_applyWrites, generate_eq_applyWrites]
  rw [applyWrites_lookup, applyWrites_lookup]
  cases hl : lastVal (allWrites table root) q <;> simp

/-- C9 witness. -/
theorem c9_generate_idempotent_witness :
    generate [(none, ["a.c"]), (some "P", ["b.c"])] "out"
        (generate [(none, ["a.c"]), (some "P", ["b.c"])] "out" (fun _ => none))
      = generate [(none, ["a.c"]), (some "P", ["b.c"])] "out" (fun _ => none) :=
  c9_generate_idempotent [(none, ["a.c"]), (some "P", ["b.c"])] "out" (fun _ => none) (by decide)

end WrapperGen
